import Mathlib

/-!
Verification of the commit-message convention validator in `dangerfile.js`.

The validator (`commitLint`) receives a commit record `{ sha, msg }` and
returns `undefined` (valid) or an error string.  We embed it shallowly:
`Option String` stands for `string | undefined`, `Option String` in the
record stands for a possibly absent message, and the JavaScript
`msg.split('\n')` is embedded as the structurally recursive `splitLines`
on the character list of the message.
-/

/-- A commit record as built by the dangerfile from the review-bot data:
`{ sha: obj.sha, msg: obj.commit.message }`. `msg` is `Option String`
because the message may be absent (`undefined`/`null`) in JavaScript. -/
structure CommitRecord where
  sha : String
  msg : Option String
deriving Repr, DecidableEq

/-- The message string seen by the validator; an absent message behaves
like the empty string under the JavaScript `!msg` truthiness test. -/
def msgOf (c : CommitRecord) : String := c.msg.getD ""

/-- Embedding of JavaScript `str.split('\n')`: splitting on every newline,
never dropping empty segments, and producing `[""]` on the empty string. -/
def splitLines : List Char → List (List Char)
  | [] => [[]]
  | c :: rest =>
    if c = '\n' then [] :: splitLines rest
    else
      match splitLines rest with
      | [] => [[c]]
      | l :: ls => (c :: l) :: ls

/-- `msgLines m` embeds `const msgLines = msg.split('\n')`. -/
def msgLines (m : String) : List (List Char) := splitLines m.data

/-- A character matched by the JavaScript regex `.` (no `s` flag): any
character that is not a line terminator. -/
def isDot (c : Char) : Bool :=
  !(c == '\n') && !(c == '\r') && !(c == '\u2028') && !(c == '\u2029')

/-- Matcher for the regex tail `: (.{1,})` — a colon, a space, and at
least one subject character. -/
def colonSubject : List Char → Bool
  | c1 :: c2 :: c3 :: _ => c1 == ':' && c2 == ' ' && isDot c3
  | _ => false

/-- Matcher for `.{0,}\): (.{1,})` with backtracking: some (possibly zero)
further scope characters, a closing parenthesis, then `: <subject>`. -/
def scopeClose : List Char → Bool
  | [] => false
  | c :: rest => (c == ')' && colonSubject rest) || (isDot c && scopeClose rest)

/-- Matcher for `\(.{1,}\): (.{1,})` — an opening parenthesis, at least one
scope character, a closing parenthesis, then `: <subject>`. -/
def scopeBranch : List Char → Bool
  | c0 :: c1 :: rest => c0 == '(' && isDot c1 && scopeClose rest
  | _ => false

/-- Matcher for the part of `headerRegex` after the type tag:
`(\(.{1,}\))?: (.{1,})` — an optional parenthesized scope, then
`: <subject>`. -/
def afterTag (l : List Char) : Bool := scopeBranch l || colonSubject l

/-- The fixed set of type tags of `headerRegex` in `dangerfile.js`. -/
def tags : List String :=
  ["feat", "fix", "docs", "style", "refactor", "perf", "test", "build",
   "ci", "chore", "revert"]

/-- `leadsWith p l` holds when `p` is an initial segment of `l`. -/
def leadsWith : List Char → List Char → Bool
  | [], _ => true
  | _ :: _, [] => false
  | a :: as, b :: bs => a == b && leadsWith as bs

/-- Embedding of `headerRegex.test(msg)` for
`/^(feat|fix|docs|style|refactor|perf|test|build|ci|chore|revert)(\(.{1,}\))?: (.{1,})/`:
anchored at the start of the string, so the match is a decomposition of a
prefix of `msg` into a tag, an optional scope, and `: <subject>`. -/
def headerTest (m : String) : Bool :=
  tags.any fun t => leadsWith t.data m.data && afterTag (m.data.drop t.data.length)

/-- Embedding of `hasTextRegex.test(line)` for `/([^\W\_]){1,}/`: the
character class `[^\W\_]` is exactly the ASCII alphanumerics (word
characters minus the underscore, which the regex excludes explicitly). -/
def hasText (l : List Char) : Bool := l.any Char.isAlphanum

/-- The shared prefix of every convention-violation error string. -/
def errorMessage (sha : String) : String :=
  "Commit " ++ sha ++ " message does not comply with" ++
    " the conventional-changelog-standard conventions."

/-- Error for a missing or empty commit message. -/
def noMsgErr (sha : String) : String :=
  "Commit " ++ sha ++ " has no commit message"

/-- Error for a header line that does not match `headerRegex`. -/
def headerErr (sha : String) : String :=
  errorMessage sha ++
    " Line #1 should be `<type>(<scope>): <subject>` or `<type>: <subject>`."

/-- Error for a non-blank second line. -/
def line2Err (sha : String) : String :=
  errorMessage sha ++ " Line #2 should be `<blank line>`."

/-- Error for a third line without body text. -/
def bodyErr (sha : String) : String :=
  errorMessage sha ++ " Line #3 should be `<body>` (with text)."

/-- Error for a non-blank fourth line. -/
def line4Err (sha : String) : String :=
  errorMessage sha ++ " Line #4 should be `<blank line>`."

/-- Error for a fifth line without footer text; note the source labels it
`Line #3`, the same label as the body error. -/
def footerErr (sha : String) : String :=
  errorMessage sha ++ " Line #3 should be `<footer>` with text."

/-- `lineAt L i` embeds the JavaScript indexing `msgLines[i]`; it is total
with default `[]` but every use in `commitLint` is guarded by
`msgLines.length > i`. -/
def lineAt (L : List (List Char)) (i : Nat) : List Char := L.getD i []

/-- The guard of the blank-line checks: more than `i` lines exist and line
`i` is not the empty string (`msgLines.length > i && msgLines[i] !== ''`). -/
def blankFail (L : List (List Char)) (i : Nat) : Bool :=
  decide (L.length > i) && !(lineAt L i == [])

/-- The guard of the text checks: more than `i` lines exist and line `i`
has no text (`msgLines.length > i && !hasTextRegex.test(msgLines[i])`). -/
def textFail (L : List (List Char)) (i : Nat) : Bool :=
  decide (L.length > i) && !(hasText (lineAt L i))

/-- Embedding of `commitLint` from `dangerfile.js`: the sequential checks,
each an early `return`, in source order. `none` embeds the final
`return undefined` (a compliant message). -/
def commitLint (commit : CommitRecord) : Option String :=
  if msgOf commit == "" then some (noMsgErr commit.sha)
  else if !(headerTest (msgOf commit)) then some (headerErr commit.sha)
  else if blankFail (msgLines (msgOf commit)) 1 then some (line2Err commit.sha)
  else if textFail (msgLines (msgOf commit)) 2 then some (bodyErr commit.sha)
  else if blankFail (msgLines (msgOf commit)) 3 then some (line4Err commit.sha)
  else if textFail (msgLines (msgOf commit)) 4 then some (footerErr commit.sha)
  else none

/-- A message accepted by `headerRegex` is non-empty: every tag demands at
least one character at the front. -/
theorem headerTest_nonempty {m : String} (h : headerTest m = true) :
    (m == "") = false := by
  cases hb : m == "" with
  | false => rfl
  | true =>
    have hm : m = "" := eq_of_beq hb
    subst hm
    exact absurd h (by decide)

/-- C7: a commit whose message is absent (`none`) or empty returns the
no-commit-message error, whatever the commit id; the check precedes all
others, so no other error can be produced. -/
theorem claim_C7 (sha : String) (msg : Option String)
    (h : msg = none ∨ msg = some "") :
    commitLint ⟨sha, msg⟩ = some (noMsgErr sha) := by
  rcases h with h | h <;> subst h <;> rfl

/-- Witness for C7 at a concrete absent message and commit id. -/
theorem claim_C7_witness :
    commitLint ⟨"deadbeef", none⟩ = some (noMsgErr "deadbeef") :=
  claim_C7 "deadbeef" none (Or.inl rfl)

/-- C9: `commitLint` is a pure function of the fields of the record: two records
with the same id and the same message validate to the same result. -/
theorem claim_C9 (c1 c2 : CommitRecord) (h1 : c1.sha = c2.sha)
    (h2 : c1.msg = c2.msg) : commitLint c1 = commitLint c2 := by
  cases c1
  cases c2
  cases h1
  cases h2
  rfl

/-- Witness for C9 at a concrete record validated twice. -/
theorem claim_C9_witness :
    commitLint ⟨"a1b2", some "feat: x"⟩ = commitLint ⟨"a1b2", some "feat: x"⟩ :=
  claim_C9 ⟨"a1b2", some "feat: x"⟩ ⟨"a1b2", some "feat: x"⟩ rfl rfl

/-- C4: a one-line message whose header matches `headerRegex` is valid:
the line-count-conditional checks do not apply. -/
theorem claim_C4 (c : CommitRecord) (m : String) (hm : c.msg = some m)
    (hone : (msgLines m).length = 1) (hh : headerTest m = true) :
    commitLint c = none := by
  have hne := headerTest_nonempty hh
  simp [commitLint, msgOf, hm, hne, hh, blankFail, textFail, hone]

/-- Witness for C4 at a concrete header-only message with a scope. -/
theorem claim_C4_witness :
    commitLint ⟨"c0ffee", some "feat(scope): subject"⟩ = none :=
  claim_C4 ⟨"c0ffee", some "feat(scope): subject"⟩ "feat(scope): subject"
    rfl (by decide) (by decide)

/-- C6: a message of more than one line that passes the header check but
whose second line is not empty gets the line-2-should-be-blank error. -/
theorem claim_C6 (c : CommitRecord) (m : String) (hm : c.msg = some m)
    (hh : headerTest m = true) (hlen : 1 < (msgLines m).length)
    (hl1 : lineAt (msgLines m) 1 ≠ []) :
    commitLint c = some (line2Err c.sha) := by
  have hne := headerTest_nonempty hh
  have hbf : blankFail (msgLines m) 1 = true := by
    simp [blankFail, hlen, hl1]
  simp [commitLint, msgOf, hm, hne, hh, hbf]

/-- Witness for C6 at the two-line example of the spec. -/
theorem claim_C6_witness :
    commitLint ⟨"s6", some "feat: add x\nsome text"⟩ = some (line2Err "s6") :=
  claim_C6 ⟨"s6", some "feat: add x\nsome text"⟩ "feat: add x\nsome text"
    rfl (by decide) (by decide) (by decide)

/-- C3: a message of the full conventional shape (matching header, blank
second line, third line with text, and when present a blank fourth line
and a fifth line with alphanumeric text) is valid. -/
theorem claim_C3 (c : CommitRecord) (m : String) (hm : c.msg = some m)
    (hh : headerTest m = true)
    (hlen2 : 2 < (msgLines m).length) (hlen5 : (msgLines m).length ≤ 5)
    (hl1 : lineAt (msgLines m) 1 = [])
    (hbody : hasText (lineAt (msgLines m) 2) = true)
    (hl3 : 3 < (msgLines m).length → lineAt (msgLines m) 3 = [])
    (hfoot : 4 < (msgLines m).length → hasText (lineAt (msgLines m) 4) = true) :
    commitLint c = none := by
  have hne := headerTest_nonempty hh
  have h1 : blankFail (msgLines m) 1 = false := by simp [blankFail, hl1]
  have h2 : textFail (msgLines m) 2 = false := by simp [textFail, hbody]
  have h3 : blankFail (msgLines m) 3 = false := by
    by_cases hgt : 3 < (msgLines m).length
    · simp [blankFail, hl3 hgt]
    · simp [blankFail, hgt]
  have h4 : textFail (msgLines m) 4 = false := by
    by_cases hgt : 4 < (msgLines m).length
    · simp [textFail, hfoot hgt]
    · simp [textFail, hgt]
  simp [commitLint, msgOf, hm, hne, hh, h1, h2, h3, h4]

/-- Witness for C3 at the three-line example message of the spec. -/
theorem claim_C3_witness :
    commitLint ⟨"s3", some "fix(core): bug\n\nfixes an issue"⟩ = none :=
  claim_C3 ⟨"s3", some "fix(core): bug\n\nfixes an issue"⟩
    "fix(core): bug\n\nfixes an issue" rfl (by decide) (by decide) (by decide)
    (by decide) (by decide) (by decide) (by decide)

/-- C10: when only the footer check fails (five or more lines, all earlier
checks passing, fifth line without alphanumeric text), the returned error
labels the defect `Line #3` — the same line number the body error uses —
not line 5. -/
theorem claim_C10 (c : CommitRecord) (m : String) (hm : c.msg = some m)
    (hh : headerTest m = true) (hlen : 4 < (msgLines m).length)
    (hl1 : lineAt (msgLines m) 1 = [])
    (hbody : hasText (lineAt (msgLines m) 2) = true)
    (hl3 : lineAt (msgLines m) 3 = [])
    (hfoot : hasText (lineAt (msgLines m) 4) = false) :
    commitLint c =
      some (errorMessage c.sha ++ " Line #3 should be `<footer>` with text.") ∧
    bodyErr c.sha =
      errorMessage c.sha ++ " Line #3 should be `<body>` (with text)." := by
  constructor
  · have hne := headerTest_nonempty hh
    have h1 : blankFail (msgLines m) 1 = false := by simp [blankFail, hl1]
    have h2 : textFail (msgLines m) 2 = false := by simp [textFail, hbody]
    have h3 : blankFail (msgLines m) 3 = false := by simp [blankFail, hl3]
    have h4 : textFail (msgLines m) 4 = true := by simp [textFail, hlen, hfoot]
    simp [commitLint, msgOf, hm, hne, hh, h1, h2, h3, h4, footerErr]
  · rfl

/-- Witness for C10 at a concrete message whose footer line is `---`. -/
theorem claim_C10_witness :
    commitLint ⟨"sA", some "feat: x\n\nbody\n\n---"⟩ =
      some (errorMessage "sA" ++ " Line #3 should be `<footer>` with text.") ∧
    bodyErr "sA" =
      errorMessage "sA" ++ " Line #3 should be `<body>` (with text)." :=
  claim_C10 ⟨"sA", some "feat: x\n\nbody\n\n---"⟩ "feat: x\n\nbody\n\n---"
    rfl (by decide) (by decide) (by decide) (by decide) (by decide) (by decide)

/-- Characters allowed before the scope/subject delimiters: a leading type
tag runs up to the first `:` or `(` of the header line. -/
def tagPred (c : Char) : Bool := !(c == ':') && !(c == '(')

/-- The leading type tag of a message: the maximal prefix not containing
`:` or `(`. -/
def leadingTag (m : String) : String := String.mk (m.data.takeWhile tagPred)

/-- If `p` is an initial segment of `l`, then `l` decomposes as `p`
followed by the rest of `l`. -/
theorem leadsWith_drop (p : List Char) :
    ∀ l, leadsWith p l = true → l = p ++ l.drop p.length := by
  induction p with
  | nil => intro l _; simp
  | cons a as ih =>
    intro l h
    cases l with
    | nil => simp [leadsWith] at h
    | cons b bs =>
      simp only [leadsWith, Bool.and_eq_true, beq_iff_eq] at h
      obtain ⟨hab, h2⟩ := h
      subst hab
      simpa [List.drop_succ_cons] using congrArg (List.cons a) (ih bs h2)

/-- `takeWhile` over a list that starts with satisfying characters and
then hits a failing one returns exactly the satisfying part. -/
theorem takeWhile_all (pred : Char → Bool) :
    ∀ (p : List Char) (c : Char) (rest : List Char),
    (∀ x ∈ p, pred x = true) → pred c = false →
    (p ++ c :: rest).takeWhile pred = p := by
  intro p
  induction p with
  | nil => intro c rest _ hc; simp [List.takeWhile_cons, hc]
  | cons a as ih =>
    intro c rest hall hc
    have ha : pred a = true := hall a (by simp)
    simp [List.takeWhile_cons, ha,
      ih c rest (fun x hx => hall x (by simp [hx])) hc]

/-- The part of the header regex after the tag can only start with `(`
(scope branch) or `:` (no-scope branch). -/
theorem afterTag_head (c : Char) (cs : List Char)
    (h : afterTag (c :: cs) = true) : c = '(' ∨ c = ':' := by
  rcases cs with _ | ⟨c2, cs2⟩
  · simp [afterTag, scopeBranch, colonSubject] at h
  · rcases cs2 with _ | ⟨c3, cs3⟩
    · simp [afterTag, scopeBranch, colonSubject, scopeClose] at h
    · simp only [afterTag, scopeBranch, colonSubject, Bool.or_eq_true,
        Bool.and_eq_true, beq_iff_eq] at h
      rcases h with h | h
      · exact Or.inl h.1.1
      · exact Or.inr h.1.1

/-- Any message accepted by `headerRegex` has its leading tag in the fixed
tag set: the regex alternation demands an exact tag followed immediately
by `(` or `:`. -/
theorem headerTest_leadingTag {m : String} (h : headerTest m = true) :
    leadingTag m ∈ tags := by
  unfold headerTest at h
  rw [List.any_eq_true] at h
  obtain ⟨t, ht, hmatch⟩ := h
  rw [Bool.and_eq_true] at hmatch
  obtain ⟨hpre, hafter⟩ := hmatch
  have hdec := leadsWith_drop t.data m.data hpre
  cases hr : m.data.drop t.data.length with
  | nil => rw [hr] at hafter; exact absurd hafter (by simp [afterTag, scopeBranch, colonSubject])
  | cons c cs =>
    rw [hr] at hafter hdec
    have hc := afterTag_head c cs hafter
    have hcp : tagPred c = false := by
      rcases hc with hc | hc <;> subst hc <;> rfl
    have hall : ∀ x ∈ t.data, tagPred x = true := by
      fin_cases ht <;> decide
    have htk : m.data.takeWhile tagPred = t.data := by
      rw [hdec]; exact takeWhile_all tagPred t.data c cs hall hcp
    unfold leadingTag
    rw [htk]
    cases t with
    | mk d => exact ht

/-- C5: a non-empty one-line message whose leading type tag (the text
before the first `:` or `(`) is not exactly one of the fixed tags gets the
line-1 header-format error; comparison is case-sensitive and exact. -/
theorem claim_C5 (c : CommitRecord) (m : String) (hm : c.msg = some m)
    (hne : m ≠ "") (hone : (msgLines m).length = 1)
    (htag : leadingTag m ∉ tags) :
    commitLint c = some (headerErr c.sha) := by
  have hh : headerTest m = false := by
    cases hht : headerTest m with
    | false => rfl
    | true => exact absurd (headerTest_leadingTag hht) htag
  have hne2 : (m == "") = false := by simp [hne]
  simp [commitLint, msgOf, hm, hne2, hh]

/-- Witness for C5 at the concrete example `"unknown: thing"`. -/
theorem claim_C5_witness :
    commitLint ⟨"s5", some "unknown: thing"⟩ = some (headerErr "s5") :=
  claim_C5 ⟨"s5", some "unknown: thing"⟩ "unknown: thing" rfl
    (by decide) (by decide) (by decide)

/-- Appending different strings to the same string gives different
strings. -/
theorem append_ne (s : String) {a b : String} (h : a ≠ b) :
    s ++ a ≠ s ++ b := by
  intro he
  apply h
  have hd : (s ++ a).data = (s ++ b).data := congrArg String.data he
  rw [String.data_append, String.data_append] at hd
  have h2 : a.data = b.data := List.append_cancel_left hd
  cases a
  cases b
  exact congrArg String.mk h2

/-- C2 counterexample: for the commit message `"fix: x\n\n___"` the body
line `"___"` does contain an alphanumeric-or-underscore character, yet
`commitLint` returns the line-3 body error — refuting the claim that the
body error appears exactly when the line has no such character (the
regex class `[^\W\_]` excludes the underscore). -/
theorem claim_C2_counterexample :
    ¬ (commitLint ⟨"s2", some "fix: x\n\n___"⟩ = some (bodyErr "s2") ↔
       ("___".data.any fun ch => ch.isAlphanum || ch == '_') = false) := by
  decide

/-- C2 (amended): for a message of more than two lines passing the header
check with an empty second line, `commitLint` returns the line-3 body
error exactly when line 2 (0-indexed) contains no ASCII alphanumeric
character; underscores do not count as text, so both an underscore-only
and a whitespace-only body line fail the body check. -/
theorem claim_C2_amended (c : CommitRecord) (m : String) (hm : c.msg = some m)
    (hh : headerTest m = true) (hlen : 2 < (msgLines m).length)
    (hl1 : lineAt (msgLines m) 1 = []) :
    (commitLint c = some (bodyErr c.sha)) ↔
      hasText (lineAt (msgLines m) 2) = false := by
  have hne := headerTest_nonempty hh
  have h1 : blankFail (msgLines m) 1 = false := by simp [blankFail, hl1]
  constructor
  · intro heq
    cases hb : hasText (lineAt (msgLines m) 2) with
    | false => rfl
    | true =>
      exfalso
      have h2 : textFail (msgLines m) 2 = false := by simp [textFail, hb]
      cases h3 : blankFail (msgLines m) 3 with
      | true =>
        simp [commitLint, msgOf, hm, hne, hh, h1, h2, h3] at heq
        rw [line4Err, bodyErr] at heq
        exact append_ne (errorMessage c.sha) (by decide) heq
      | false =>
        cases h4 : textFail (msgLines m) 4 with
        | true =>
          simp [commitLint, msgOf, hm, hne, hh, h1, h2, h3, h4] at heq
          rw [footerErr, bodyErr] at heq
          exact append_ne (errorMessage c.sha) (by decide) heq
        | false =>
          simp [commitLint, msgOf, hm, hne, hh, h1, h2, h3, h4] at heq
  · intro hb
    have h2 : textFail (msgLines m) 2 = true := by simp [textFail, hlen, hb]
    simp [commitLint, msgOf, hm, hne, hh, h1, h2]

/-- Witness for the amended C2 at the whitespace-only body example. -/
theorem claim_C2_amended_witness :
    commitLint ⟨"s2w", some "fix(core): bug\n\n   \n\nfooter"⟩ =
      some (bodyErr "s2w") :=
  (claim_C2_amended ⟨"s2w", some "fix(core): bug\n\n   \n\nfooter"⟩
    "fix(core): bug\n\n   \n\nfooter" rfl (by decide) (by decide)
    (by decide)).mpr (by decide)

/-- The six sequential checks of `commitLint` as the spec models them: an
ordered list of predicate+message pairs. `checkPass c i = true` means
check `i` does not fire (it passes, or its line-count guard makes it
inapplicable). -/
def checkPass (c : CommitRecord) : Fin 6 → Bool
  | ⟨0, _⟩ => !(msgOf c == "")
  | ⟨1, _⟩ => headerTest (msgOf c)
  | ⟨2, _⟩ => !(blankFail (msgLines (msgOf c)) 1)
  | ⟨3, _⟩ => !(textFail (msgLines (msgOf c)) 2)
  | ⟨4, _⟩ => !(blankFail (msgLines (msgOf c)) 3)
  | ⟨5, _⟩ => !(textFail (msgLines (msgOf c)) 4)
  | ⟨n + 6, h⟩ => False.elim (by omega)

/-- The error message each of the six checks reports when it fires. -/
def checkMsg (c : CommitRecord) : Fin 6 → String
  | ⟨0, _⟩ => noMsgErr c.sha
  | ⟨1, _⟩ => headerErr c.sha
  | ⟨2, _⟩ => line2Err c.sha
  | ⟨3, _⟩ => bodyErr c.sha
  | ⟨4, _⟩ => line4Err c.sha
  | ⟨5, _⟩ => footerErr c.sha
  | ⟨n + 6, h⟩ => False.elim (by omega)

/-- C1: the checks short-circuit: if check `i` fails and every earlier
check passes, `commitLint` returns exactly the error of check `i` — later
violations are never reported. -/
theorem claim_C1 (c : CommitRecord) (i : Fin 6)
    (hi : checkPass c i = false)
    (hj : ∀ j : Fin 6, j < i → checkPass c j = true) :
    commitLint c = some (checkMsg c i) := by
  obtain ⟨iv, hlt⟩ := i
  interval_cases iv
  · simp [checkPass] at hi
    simp [commitLint, checkMsg, hi]
  · have h0 := hj ⟨0, by omega⟩ (Fin.mk_lt_mk.mpr (by omega))
    simp [checkPass] at hi h0
    simp [commitLint, checkMsg, h0, hi]
  · have h0 := hj ⟨0, by omega⟩ (Fin.mk_lt_mk.mpr (by omega))
    have h1 := hj ⟨1, by omega⟩ (Fin.mk_lt_mk.mpr (by omega))
    simp [checkPass] at hi h0 h1
    simp [commitLint, checkMsg, h0, h1, hi]
  · have h0 := hj ⟨0, by omega⟩ (Fin.mk_lt_mk.mpr (by omega))
    have h1 := hj ⟨1, by omega⟩ (Fin.mk_lt_mk.mpr (by omega))
    have h2 := hj ⟨2, by omega⟩ (Fin.mk_lt_mk.mpr (by omega))
    simp [checkPass] at hi h0 h1 h2
    simp [commitLint, checkMsg, h0, h1, h2, hi]
  · have h0 := hj ⟨0, by omega⟩ (Fin.mk_lt_mk.mpr (by omega))
    have h1 := hj ⟨1, by omega⟩ (Fin.mk_lt_mk.mpr (by omega))
    have h2 := hj ⟨2, by omega⟩ (Fin.mk_lt_mk.mpr (by omega))
    have h3 := hj ⟨3, by omega⟩ (Fin.mk_lt_mk.mpr (by omega))
    simp [checkPass] at hi h0 h1 h2 h3
    simp [commitLint, checkMsg, h0, h1, h2, h3, hi]
  · have h0 := hj ⟨0, by omega⟩ (Fin.mk_lt_mk.mpr (by omega))
    have h1 := hj ⟨1, by omega⟩ (Fin.mk_lt_mk.mpr (by omega))
    have h2 := hj ⟨2, by omega⟩ (Fin.mk_lt_mk.mpr (by omega))
    have h3 := hj ⟨3, by omega⟩ (Fin.mk_lt_mk.mpr (by omega))
    have h4 := hj ⟨4, by omega⟩ (Fin.mk_lt_mk.mpr (by omega))
    simp [checkPass] at hi h0 h1 h2 h3 h4
    simp [commitLint, checkMsg, h0, h1, h2, h3, h4, hi]

/-- Witness for C1: a message whose second line is non-blank and whose
third line is whitespace-only violates checks 2 and 3 (0-indexed), and
`commitLint` reports only the earlier line-2 error. -/
theorem claim_C1_witness :
    checkPass ⟨"s1", some "feat: add x\nbad\n   "⟩ 2 = false ∧
    checkPass ⟨"s1", some "feat: add x\nbad\n   "⟩ 3 = false ∧
    commitLint ⟨"s1", some "feat: add x\nbad\n   "⟩ =
      some (checkMsg ⟨"s1", some "feat: add x\nbad\n   "⟩ 2) :=
  ⟨by decide, by decide,
    claim_C1 ⟨"s1", some "feat: add x\nbad\n   "⟩ 2 (by decide) (by decide)⟩

/-- Embedding of `const commitErrors = commits.map(commitLint)`. -/
def commitErrors (commits : List CommitRecord) : List (Option String) :=
  commits.map commitLint

/-- Embedding of the reporting loop: if some commit produced an error, each
non-`undefined` entry of `commitErrors` is passed to `fail`, in order. -/
def emittedFailures (commits : List CommitRecord) : List String :=
  if (commitErrors commits).any (fun e => e.isSome)
  then (commitErrors commits).foldr
        (fun e acc => match e with | some err => err :: acc | none => acc) []
  else []

/-- Folding the collection step of the reporting loop gives `filterMap`. -/
theorem foldr_collect (l : List (Option String)) :
    l.foldr (fun e acc => match e with | some err => err :: acc | none => acc)
      [] = l.filterMap id := by
  induction l with
  | nil => rfl
  | cons e rest ih => cases e <;> simp [List.filterMap_cons, ih]

/-- C8: the failures the orchestration emits are exactly the
non-`undefined` results of mapping `commitLint` over the commits, and the entry of each
commit depends only on that commit, independent of its position
and of the other commits. -/
theorem claim_C8 (commits : List CommitRecord) :
    emittedFailures commits = commits.filterMap commitLint ∧
    ∀ (pre post : List CommitRecord) (c : CommitRecord),
      commitErrors (pre ++ c :: post) =
        commitErrors pre ++ commitLint c :: commitErrors post := by
  constructor
  · unfold emittedFailures
    split
    · rw [foldr_collect]
      simp [commitErrors, List.filterMap_map, Function.comp]
    · next hany =>
      symm
      rw [List.filterMap_eq_nil_iff]
      intro a ha
      cases hca : commitLint a with
      | none => rfl
      | some err =>
        exfalso
        apply hany
        rw [List.any_eq_true]
        refine ⟨some err, ?_, rfl⟩
        rw [commitErrors, List.mem_map]
        exact ⟨a, ha, hca⟩
  · intro pre post c
    simp [commitErrors]
